import Mathlib

/-!
Shallow embedding of the realtime direct-messaging layer of this repository:
the message store accessor, presence/directory aggregator, pair broadcast
channel and typing-indicator controller of
`client/lib/realtime-messaging.service.ts`, the conversation-list merge of the
messaging page (`initializeChat` in `RealtimeMessagesPage`), and the
persisted schema of `supabase-messages-1to1.sql`.

Conventions of the embedding:
* uuid values generated by the database (`gen_random_uuid()`) are modelled as
  `Nat`, drawn from a per-store counter `nextId`; freshness of generated ids
  is expressed by the well-formedness hypothesis `∀ r ∈ messages, r.id < nextId`.
* timestamps (`now()`, `new Date().toISOString()`) are modelled as `Nat`
  (milliseconds); the backend clock is the field `now` of the store state.
* every remote call is parameterised by a `DbOutcome`: the call succeeded
  (`ok`), returned an error result without throwing (`errRes`), or threw an
  exception that the service catches (`thrown`).
* `ORDER BY` clauses are modelled by `List.insertionSort`, reading the row
  list in table insertion order.
-/

namespace RealtimeMessaging

/-- Outcome of a backend (supabase) call as observed by the service code:
success, an error result (`{ error }` without an exception), or a thrown
exception caught by the service's `try/catch`. -/
inductive DbOutcome
  | ok
  | errRes
  | thrown
  deriving DecidableEq, Repr

/-- `message_type` column: `'text' | 'image' | 'file' | 'system'`. -/
inductive MsgType
  | text
  | image
  | file
  | system
  deriving DecidableEq, Repr

/-- `status` column: `'sent' | 'delivered' | 'read'`. -/
inductive MsgStatus
  | sent
  | delivered
  | read
  deriving DecidableEq, Repr

/-- A row of the `messages` table (`supabase-messages-1to1.sql`). -/
structure MessageRow where
  id : Nat
  sender_id : String
  receiver_id : String
  content : String
  message_type : MsgType
  status : MsgStatus
  reply_to : Option Nat
  created_at : Nat
  updated_at : Nat
  read_at : Option Nat
  deriving DecidableEq, Repr

/-- A row of the `profiles` table (the fields the messaging layer selects:
`user_id, name, profile_picture`). -/
structure Profile where
  user_id : String
  name : String
  profile_picture : Option String
  deriving DecidableEq, Repr

/-- A row of the `user_status` table (`user_id` is unique). -/
structure UserStatusRow where
  user_id : String
  is_online : Bool
  last_seen : Nat
  deriving DecidableEq, Repr

/-- Hydrated profile reference embedded in a `Message`
(`{ id: profile.user_id, name, profile_picture }`). -/
structure ProfileRef where
  id : String
  name : String
  profile_picture : Option String
  deriving DecidableEq, Repr

/-- The `Message` interface of the service: a message row plus the
separately-fetched sender/receiver display data. -/
structure Message where
  id : Nat
  sender_id : String
  receiver_id : String
  content : String
  message_type : MsgType
  status : MsgStatus
  reply_to : Option Nat
  created_at : Nat
  updated_at : Nat
  read_at : Option Nat
  sender : Option ProfileRef
  receiver : Option ProfileRef
  deriving DecidableEq, Repr

/-- `last_message` summary of a conversation preview. -/
structure LastMessage where
  content : String
  created_at : Nat
  sender_id : String
  deriving DecidableEq, Repr

/-- The `ConversationPreview` interface of the service. -/
structure ConversationPreview where
  user_id : String
  name : String
  profile_picture : Option String
  last_message : Option LastMessage
  unread_count : Nat
  is_online : Bool
  last_seen : Option Nat
  deriving DecidableEq, Repr

/-- Entry returned by `getOnlineUsers`. -/
structure OnlineEntry where
  user_id : String
  name : String
  profile_picture : Option String
  last_seen : Option Nat
  deriving DecidableEq, Repr

/-- The backend store state the messaging service talks to: the three tables,
the id generator and the clock. -/
structure DB where
  messages : List MessageRow
  profiles : List Profile
  statuses : List UserStatusRow
  nextId : Nat
  now : Nat
  deriving Repr

/-- `buildPairRoom`: stable room name for a user pair,
`[a, b].sort()` then `` `dm:${a}:${b}` ``. -/
def buildPairRoom (userIdA userIdB : String) : String :=
  if userIdA ≤ userIdB then "dm:" ++ userIdA ++ ":" ++ userIdB
  else "dm:" ++ userIdB ++ ":" ++ userIdA

/-- Profile lookup by `user_id` (the `.eq('user_id', …).single()` /
`profMap.get` pattern of the service). -/
def lookupProfile (profiles : List Profile) (uid : String) : Option Profile :=
  profiles.find? (fun p => p.user_id == uid)

/-- `{ id: p.user_id, name: p.name, profile_picture: p.profile_picture }`. -/
def profileRef (p : Profile) : ProfileRef :=
  { id := p.user_id, name := p.name, profile_picture := p.profile_picture }

/-- Build the API `Message` from a stored row, hydrating sender/receiver
display data by identifier (join-free, as in `getMessages`/`sendMessage`). -/
def hydrateMessage (profiles : List Profile) (m : MessageRow) : Message :=
  { id := m.id
    sender_id := m.sender_id
    receiver_id := m.receiver_id
    content := m.content
    message_type := m.message_type
    status := m.status
    reply_to := m.reply_to
    created_at := m.created_at
    updated_at := m.updated_at
    read_at := m.read_at
    sender := (lookupProfile profiles m.sender_id).map profileRef
    receiver := (lookupProfile profiles m.receiver_id).map profileRef }

/-- The `.or(and(sender.eq.u1,receiver.eq.u2),and(sender.eq.u2,receiver.eq.u1))`
filter of `getMessages`. -/
def betweenPair (u1 u2 : String) (m : MessageRow) : Bool :=
  (m.sender_id == u1 && m.receiver_id == u2) ||
  (m.sender_id == u2 && m.receiver_id == u1)

/-- Rows of the conversation between `u1` and `u2`, in table order. -/
def pairRows (db : DB) (u1 u2 : String) : List MessageRow :=
  db.messages.filter (betweenPair u1 u2)

/-- `ORDER BY created_at ASC` comparison. -/
def timeLE (a b : MessageRow) : Prop :=
  a.created_at ≤ b.created_at

instance : DecidableRel timeLE :=
  fun a b => inferInstanceAs (Decidable (a.created_at ≤ b.created_at))

instance : IsTotal MessageRow timeLE :=
  ⟨fun a b => Nat.le_total a.created_at b.created_at⟩

instance : IsTrans MessageRow timeLE :=
  ⟨fun _ _ _ hab hbc => Nat.le_trans hab hbc⟩

/-- `ORDER BY created_at DESC` comparison (used by `getConversations`). -/
def timeGE (a b : MessageRow) : Prop :=
  b.created_at ≤ a.created_at

instance : DecidableRel timeGE :=
  fun a b => inferInstanceAs (Decidable (b.created_at ≤ a.created_at))

instance : IsTotal MessageRow timeGE :=
  ⟨fun a b => (Nat.le_total b.created_at a.created_at).imp id id⟩

instance : IsTrans MessageRow timeGE :=
  ⟨fun _ _ _ hab hbc => Nat.le_trans hbc hab⟩

/-- `getMessages(userId1, userId2, limit, offset)`: conversation rows sorted
ascending by creation time, windowed by `.range(offset, offset + limit - 1)`
(inclusive, i.e. `limit` rows starting at index `offset`), then hydrated.
Any failure (error result or exception) yields `[]`. -/
def getMessages (db : DB) (u1 u2 : String) (limit offset : Nat)
    (q : DbOutcome) : List Message :=
  match q with
  | .ok =>
      ((((pairRows db u1 u2).insertionSort timeLE).drop offset).take limit).map
        (hydrateMessage db.profiles)
  | _ => []

/-- The fresh row inserted by `sendMessage` (database defaults:
`status 'sent'`, `message_type 'text'`, `created_at/updated_at now()`,
`id gen_random_uuid()` modelled by the `nextId` counter). -/
def insertedRow (db : DB) (senderId receiverId content : String) : MessageRow :=
  { id := db.nextId
    sender_id := senderId
    receiver_id := receiverId
    content := content
    message_type := .text
    status := .sent
    reply_to := none
    created_at := db.now
    updated_at := db.now
    read_at := none }

/-- Result of a `sendMessage` call: the store afterwards, the payloads pushed
onto the pair broadcast channel, and the value returned to the caller. -/
structure SendOut where
  db : DB
  broadcasts : List Message
  result : Option Message
  deriving Repr

/-- `sendMessage(senderId, receiverId, content)`.
* success: the row is inserted, hydrated, broadcast to the pair room, and
  returned;
* error result from the insert: log and `return null`, nothing broadcast;
* exception from the insert: caught; a fabricated message with a freshly
  generated random id (`crypto.randomUUID()`, modelled by the parameter
  `tempId`), status `'sent'` and current timestamps is broadcast best-effort,
  and `null` is returned. -/
def sendMessage (db : DB) (senderId receiverId content : String)
    (tempId : Nat) (q : DbOutcome) : SendOut :=
  match q with
  | .ok =>
      let row := insertedRow db senderId receiverId content
      let db' : DB :=
        { db with messages := db.messages ++ [row], nextId := db.nextId + 1 }
      let msg := hydrateMessage db'.profiles row
      { db := db', broadcasts := [msg], result := some msg }
  | .errRes =>
      { db := db, broadcasts := [], result := none }
  | .thrown =>
      let temp : Message :=
        { id := tempId
          sender_id := senderId
          receiver_id := receiverId
          content := content
          message_type := .text
          status := .sent
          reply_to := none
          created_at := db.now
          updated_at := db.now
          read_at := none
          sender := none
          receiver := none }
      { db := db, broadcasts := [temp], result := none }

/-- `markMessagesAsRead(senderId, receiverId)`: bulk `UPDATE … SET status =
'read', read_at = now()` on rows with `sender_id = senderId`,
`receiver_id = receiverId` and `status <> 'read'`. Failures are logged and
leave the store unchanged; nothing is raised. -/
def markMessagesAsRead (db : DB) (senderId receiverId : String)
    (q : DbOutcome) : DB :=
  match q with
  | .ok =>
      { db with messages := db.messages.map (fun m =>
          if m.sender_id = senderId ∧ m.receiver_id = receiverId ∧
              m.status ≠ .read then
            { m with status := .read, read_at := some db.now }
          else m) }
  | _ => db

/-- The peer of a message relative to `userId`
(`m.sender_id === userId ? m.receiver_id : m.sender_id`). -/
def otherOf (userId : String) (m : MessageRow) : String :=
  if m.sender_id = userId then m.receiver_id else m.sender_id

/-- Generic insertion-ordered keyed map step (the JS `Map`/object upsert
idiom used by `getConversations` and the page merge): if a value with key `k`
is present, rewrite every such value with `f`; otherwise append `new`. -/
def keyedUpsert (keyOf : α → String) (k : String) (f : α → α) (new : α)
    (acc : List α) : List α :=
  if acc.any (fun x => keyOf x == k) then
    acc.map (fun x => if keyOf x == k then f x else x)
  else acc ++ [new]

/-- One message of the `getConversations` scan (messages are visited most
recent first): create the peer's preview on first sight (keeping that most
recent message as `last_message`), and count the message as unread when its
sender is not `userId`. -/
def convStep (userId : String) (acc : List ConversationPreview)
    (m : MessageRow) : List ConversationPreview :=
  keyedUpsert (fun c => c.user_id) (otherOf userId m)
    (fun c =>
      if m.sender_id ≠ userId then
        { c with unread_count := c.unread_count + 1 }
      else c)
    { user_id := otherOf userId m
      name := "Unknown User"
      profile_picture := none
      last_message :=
        some { content := m.content, created_at := m.created_at,
               sender_id := m.sender_id }
      unread_count := if m.sender_id ≠ userId then 1 else 0
      is_online := false
      last_seen := none }
    acc

/-- Overlay of profile display data and presence onto a preview
(the `pMap`/`sMap` pass of `getConversations`). -/
def hydrateConv (db : DB) (c : ConversationPreview) : ConversationPreview :=
  let c1 :=
    match lookupProfile db.profiles c.user_id with
    | some p => { c with name := p.name, profile_picture := p.profile_picture }
    | none => c
  match db.statuses.find? (fun s => s.user_id == c1.user_id) with
  | some s => { c1 with is_online := s.is_online, last_seen := some s.last_seen }
  | none => c1

/-- `getConversations(userId)`: scan all messages touching `userId`, most
recent first, group by peer, then overlay profile and presence data.
Failures yield `[]`. -/
def getConversations (db : DB) (userId : String) (q : DbOutcome) :
    List ConversationPreview :=
  match q with
  | .ok =>
      let rows :=
        (db.messages.filter
          (fun m => m.sender_id == userId || m.receiver_id == userId)).insertionSort
          timeGE
      (rows.foldl (convStep userId) []).map (hydrateConv db)
  | _ => []

/-- `ORDER BY name ASC` comparison on profiles. -/
def nameLE (a b : Profile) : Prop :=
  a.name ≤ b.name

instance : DecidableRel nameLE :=
  fun a b => inferInstanceAs (Decidable (a.name ≤ b.name))

instance : IsTotal Profile nameLE :=
  ⟨fun a b => le_total a.name b.name⟩

instance : IsTrans Profile nameLE :=
  ⟨fun _ _ _ hab hbc => le_trans hab hbc⟩

/-- `getAllUsersExcept(currentUserId)`: full directory minus self,
name-ordered. Failures yield `[]`. -/
def getAllUsersExcept (db : DB) (current : String) (q : DbOutcome) :
    List Profile :=
  match q with
  | .ok =>
      (db.profiles.filter (fun p => !(p.user_id == current))).insertionSort nameLE
  | _ => []

/-- `getOnlineUsers(currentUserId)`: online-flagged user ids minus self,
joined to directory profiles, with last-seen overlay. Failures yield `[]`. -/
def getOnlineUsers (db : DB) (current : String) (q : DbOutcome) :
    List OnlineEntry :=
  match q with
  | .ok =>
      let onlineRows := db.statuses.filter (fun s => s.is_online)
      let otherIds :=
        (onlineRows.map (fun s => s.user_id)).filter (fun i => !(i == current))
      if otherIds.isEmpty then []
      else
        (db.profiles.filter (fun p => otherIds.contains p.user_id)).map
          (fun p =>
            { user_id := p.user_id
              name := p.name
              profile_picture := p.profile_picture
              last_seen :=
                (onlineRows.find? (fun s => s.user_id == p.user_id)).map
                  (fun s => s.last_seen) })
  | _ => []

/-- The filtered handler registered by `subscribeToPairBroadcast`: invoke the
callback exactly when the payload's (sender, receiver) matches the pair in
either direction.  The returned list is the sequence of callback invocations
for one arriving payload. -/
def handlePairPayload (userId otherUserId : String) (msg : Message) :
    List Message :=
  if (msg.sender_id = userId ∧ msg.receiver_id = otherUserId) ∨
      (msg.sender_id = otherUserId ∧ msg.receiver_id = userId) then
    [msg]
  else []

/-- Sort time of a preview in the page merge:
`new Date(c.last_message.created_at).getTime()` when a last message exists,
`0` otherwise. -/
def convTime (c : ConversationPreview) : Nat :=
  match c.last_message with
  | some lm => lm.created_at
  | none => 0

/-- The three-key comparator of the merged conversation list (`a` may come
before `b`): online first, then most-recent message time descending, then
name ascending. -/
def convLE (a b : ConversationPreview) : Prop :=
  (a.is_online = true ∧ b.is_online = false) ∨
  (a.is_online = b.is_online ∧
    (convTime b < convTime a ∨
      (convTime a = convTime b ∧ a.name ≤ b.name)))

instance : DecidableRel convLE :=
  fun a b =>
    inferInstanceAs (Decidable ((a.is_online = true ∧ b.is_online = false) ∨
      (a.is_online = b.is_online ∧
        (convTime b < convTime a ∨
          (convTime a = convTime b ∧ a.name ≤ b.name)))))

instance : IsTotal ConversationPreview convLE :=
  ⟨by
    have htot : ∀ x y : ConversationPreview, x.is_online = y.is_online →
        convLE x y ∨ convLE y x := by
      intro x y hxy
      unfold convLE
      rcases Nat.lt_trichotomy (convTime x) (convTime y) with h | h | h
      · exact Or.inr (Or.inr ⟨hxy.symm, Or.inl h⟩)
      · rcases le_total x.name y.name with hn | hn
        · exact Or.inl (Or.inr ⟨hxy, Or.inr ⟨h, hn⟩⟩)
        · exact Or.inr (Or.inr ⟨hxy.symm, Or.inr ⟨h.symm, hn⟩⟩)
      · exact Or.inl (Or.inr ⟨hxy, Or.inl h⟩)
    intro a b
    rcases Bool.eq_false_or_eq_true a.is_online with ha | ha <;>
      rcases Bool.eq_false_or_eq_true b.is_online with hb | hb
    · exact htot a b (ha.trans hb.symm)
    · exact Or.inl (Or.inl ⟨ha, hb⟩)
    · exact Or.inr (Or.inl ⟨hb, ha⟩)
    · exact htot a b (ha.trans hb.symm)⟩

instance : IsTrans ConversationPreview convLE :=
  ⟨by
    intro a b c hab hbc
    unfold convLE at *
    rcases hab with ⟨ha, hb⟩ | ⟨hab_eq, hab_rest⟩ <;>
      rcases hbc with ⟨hb', hc⟩ | ⟨hbc_eq, hbc_rest⟩
    · simp [hb] at hb'
    · exact Or.inl ⟨ha, hbc_eq ▸ hb⟩
    · exact Or.inl ⟨hab_eq ▸ hb', hc⟩
    · refine Or.inr ⟨hab_eq.trans hbc_eq, ?_⟩
      rcases hab_rest with h1 | ⟨h1, hn1⟩ <;> rcases hbc_rest with h2 | ⟨h2, hn2⟩
      · exact Or.inl (Nat.lt_trans h2 h1)
      · exact Or.inl (h2 ▸ h1)
      · exact Or.inl (h1 ▸ h2)
      · exact Or.inr ⟨h1.trans h2, hn1.trans hn2⟩⟩

/-- `byId` record built from `getConversations` output on the messaging page:
`conversationsData.forEach((c) => (byId[c.user_id] = c))` — a later entry with
the same key replaces the value in place. -/
def buildById (convs : List ConversationPreview) : List ConversationPreview :=
  convs.foldl
    (fun acc c => keyedUpsert (fun x => x.user_id) c.user_id (fun _ => c) c acc)
    []

/-- Whether `onlineMap[uid]` is set (`!!onlineMap[u.user_id]`). -/
def isOnlineIn (onlineL : List OnlineEntry) (uid : String) : Bool :=
  onlineL.any (fun o => o.user_id == uid)

/-- `onlineMap[uid]?.last_seen`. -/
def lastSeenIn (onlineL : List OnlineEntry) (uid : String) : Option Nat :=
  (onlineL.find? (fun o => o.user_id == uid)).bind (fun o => o.last_seen)

/-- One directory user of the page merge: insert a fresh preview (zero unread,
no last message) when the user has no entry yet, otherwise overlay the
presence fields on the existing entry. -/
def upsertDir (onlineL : List OnlineEntry) (acc : List ConversationPreview)
    (u : Profile) : List ConversationPreview :=
  keyedUpsert (fun x => x.user_id) u.user_id
    (fun c =>
      { c with is_online := isOnlineIn onlineL u.user_id
               last_seen := lastSeenIn onlineL u.user_id })
    { user_id := u.user_id
      name := u.name
      profile_picture := u.profile_picture
      last_message := none
      unread_count := 0
      is_online := isOnlineIn onlineL u.user_id
      last_seen := lastSeenIn onlineL u.user_id }
    acc

/-- The merged, sorted conversation list built on entering the messaging view
(`initializeChat` of `RealtimeMessagesPage`): previews from
`getConversations`, overlaid with the full directory and the online snapshot,
sorted online-first / most-recent-first / name-ascending. -/
def initChat (db : DB) (user : String) : List ConversationPreview :=
  let convs := getConversations db user .ok
  let allUsers := getAllUsersExcept db user .ok
  let onlineL := getOnlineUsers db user .ok
  ((allUsers.foldl (upsertDir onlineL) (buildById convs)).insertionSort convLE)

/-- A row of the `typing_indicators` table.  The table's only key is the
generated uuid primary key, so the service's `upsert` (which never passes an
id) appends a row per call; the latest row per ordered pair is the indicator
the subscriber observes. -/
structure TypingRow where
  user_id : String
  target_user_id : String
  is_typing : Bool
  deriving DecidableEq, Repr

/-- `` `${userId}-${targetUserId}` ``, the key of the local timeout registry. -/
def typingKey (userId targetUserId : String) : String :=
  userId ++ "-" ++ targetUserId

/-- Local state of the typing-indicator controller: the `typing_indicators`
rows in write order, and the pending `setTimeout` handles keyed by pair with
their scheduled fire time. -/
structure TypingState where
  rows : List TypingRow
  timeouts : List (String × Nat)
  deriving DecidableEq, Repr

/-- `sendTypingIndicator(userId, targetUserId, isTyping)` at clock `now`:
clear any pending timeout for the pair, write the indicator row, and when
`isTyping` schedule a timeout 3000 ms ahead that will send `false`.  On an
error result or an exception the write and the scheduling are skipped (the
timeout was already cleared); nothing is raised. -/
def sendTypingIndicator (s : TypingState) (userId targetUserId : String)
    (isTyping : Bool) (now : Nat) (q : DbOutcome) : TypingState :=
  let cleared : TypingState :=
    { s with timeouts :=
        s.timeouts.filter (fun kv => !(kv.1 == typingKey userId targetUserId)) }
  match q with
  | .ok =>
      let upserted : TypingState :=
        { cleared with rows :=
            cleared.rows ++ [{ user_id := userId, target_user_id := targetUserId,
                               is_typing := isTyping }] }
      if isTyping then
        { upserted with timeouts :=
            upserted.timeouts ++ [(typingKey userId targetUserId, now + 3000)] }
      else upserted
  | _ => cleared

/-- Firing the scheduled timeout for a pair at time `fireAt`: the callback is
`sendTypingIndicator(userId, targetUserId, false)`. -/
def fireTypingTimeout (s : TypingState) (userId targetUserId : String)
    (fireAt : Nat) (q : DbOutcome) : TypingState :=
  sendTypingIndicator s userId targetUserId false fireAt q

/-- The typing indicator the subscriber observes for the ordered pair: the
`is_typing` flag of the latest row written for it. -/
def latestTyping (rows : List TypingRow) (userId targetUserId : String) :
    Option Bool :=
  ((rows.filter (fun r =>
      r.user_id == userId && r.target_user_id == targetUserId)).getLast?).map
    (fun r => r.is_typing)

/-- Observer: the unread count of the preview stored for peer `k`, when an
entry for `k` is present. -/
def unreadOf (k : String) (lst : List ConversationPreview) : Option Nat :=
  (lst.find? (fun c => c.user_id == k)).map (fun c => c.unread_count)

/-- The messages the `getConversations` scan counts as unread for peer `k`:
the message's peer is `k` and its sender is not `userId`. -/
def unreadCond (userId k : String) (m : MessageRow) : Bool :=
  (otherOf userId m == k) && !(m.sender_id == userId)

/-- Empty backend store, used to instantiate universally quantified theorems
at a concrete input. -/
def dbEmpty : DB :=
  { messages := [], profiles := [], statuses := [], nextId := 0, now := 0 }

/-- An unread message row from "a" to "b", concrete input for the C8
witness. -/
def msgUnreadAB : MessageRow :=
  { id := 0, sender_id := "a", receiver_id := "b", content := "hi",
    message_type := .text, status := .sent, reply_to := none,
    created_at := 1, updated_at := 1, read_at := none }

/-- A one-message store used as concrete input for the C8 witness. -/
def dbOneUnread : DB :=
  { messages := [msgUnreadAB], profiles := [], statuses := [], nextId := 1,
    now := 9 }

/-- A message row from peer "p" to user "u", concrete input for the C5
witness. -/
def msgFromPeer : MessageRow :=
  { id := 0, sender_id := "p", receiver_id := "u", content := "yo",
    message_type := .text, status := .sent, reply_to := none,
    created_at := 1, updated_at := 1, read_at := none }

/-- A one-message store used as concrete input for the C5 witness. -/
def dbOnePeerMsg : DB :=
  { messages := [msgFromPeer], profiles := [], statuses := [], nextId := 1,
    now := 2 }

/-- A directory profile, concrete input for the C4 witness. -/
def profP : Profile :=
  { user_id := "p", name := "Pat", profile_picture := none }

/-- A store with one directory profile and no messages, concrete input for
the C4 witness. -/
def dbOneProfile : DB :=
  { messages := [], profiles := [profP], statuses := [], nextId := 0,
    now := 0 }

/-! ## Helper lemmas -/

theorem orderedInsert_append_single {α : Type} (r : α → α → Prop)
    [DecidableRel r] (x row : α) (s : List α) (h : r x row) :
    (s ++ [row]).orderedInsert r x = s.orderedInsert r x ++ [row] := by
  induction s with
  | nil => simp [List.orderedInsert, h]
  | cons b s ih =>
    by_cases hb : r x b
    · simp [List.orderedInsert, hb]
    · simp [List.orderedInsert, hb, ih]

theorem insertionSort_append_single {α : Type} (r : α → α → Prop)
    [DecidableRel r] (l : List α) (row : α) (h : ∀ x ∈ l, r x row) :
    (l ++ [row]).insertionSort r = l.insertionSort r ++ [row] := by
  induction l with
  | nil => simp [List.insertionSort, List.orderedInsert]
  | cons x l ih =>
    have hx : r x row := h x (List.mem_cons_self x l)
    simp only [List.cons_append, List.insertionSort, List.append_eq] at *
    rw [ih (fun y hy => h y (List.mem_cons_of_mem x hy)),
      orderedInsert_append_single r x row _ hx]

/-! ## Claim theorems -/

/-- **C6**: for all user identifiers A and B, the pair-room identifier
derived for (A, B) equals the one derived for (B, A), so both participants
independently compute the same channel name. -/
theorem pairRoom_symmetric (a b : String) :
    buildPairRoom a b = buildPairRoom b a := by
  unfold buildPairRoom
  rcases le_total a b with h | h
  · by_cases h2 : b ≤ a
    · have : a = b := le_antisymm h h2
      subst this; rfl
    · rw [if_pos h, if_neg h2]
  · by_cases h2 : a ≤ b
    · have : a = b := le_antisymm h2 h
      subst this; rfl
    · rw [if_neg h2, if_pos h]

/-- **C7**: for every payload arriving on a pair broadcast channel opened by
`subscribeToPairBroadcast(userId, otherUserId, onPairMessage)`, the callback
is invoked (with that payload) if and only if the payload's
(sender_id, receiver_id) equals (userId, otherUserId) or
(otherUserId, userId); payloads of any other pair are discarded. -/
theorem pairBroadcast_filters_cross_talk (userId otherUserId : String)
    (p m : Message) :
    m ∈ handlePairPayload userId otherUserId p ↔
      (m = p ∧
        ((p.sender_id = userId ∧ p.receiver_id = otherUserId) ∨
         (p.sender_id = otherUserId ∧ p.receiver_id = userId))) := by
  unfold handlePairPayload
  by_cases h : (p.sender_id = userId ∧ p.receiver_id = otherUserId) ∨
      (p.sender_id = otherUserId ∧ p.receiver_id = userId)
  · simp [h]
  · simp [h]

/-- Witness for C7 at a concrete payload: the callback fires exactly once for
a matching payload. -/
theorem pairBroadcast_filters_cross_talk_witness :
    let p : Message :=
      { id := 1, sender_id := "a", receiver_id := "b", content := "hi",
        message_type := .text, status := .sent, reply_to := none,
        created_at := 0, updated_at := 0, read_at := none,
        sender := none, receiver := none }
    p ∈ handlePairPayload "a" "b" p :=
  (pairBroadcast_filters_cross_talk "a" "b" _ _).mpr
    ⟨rfl, Or.inl ⟨rfl, rfl⟩⟩

/-- **C1**: every Message Store Accessor operation catches internal failures:
on an error result or a thrown exception, `getMessages`, `getConversations`,
`getOnlineUsers` and `getAllUsersExcept` return an empty list,
`markMessagesAsRead` returns leaving the store unchanged without raising, and
`sendMessage` returns `null` (whereas on success it returns the message), so
the failure is visible to the caller for optimistic-UI rollback. -/
theorem accessor_failure_policy (db : DB) (u1 u2 content : String)
    (limit offset tempId : Nat) (q : DbOutcome) (hq : q ≠ .ok) :
    getMessages db u1 u2 limit offset q = [] ∧
    getConversations db u1 q = [] ∧
    getOnlineUsers db u1 q = [] ∧
    getAllUsersExcept db u1 q = [] ∧
    markMessagesAsRead db u1 u2 q = db ∧
    (sendMessage db u1 u2 content tempId q).result = none ∧
    ((sendMessage db u1 u2 content tempId .ok).result).isSome = true := by
  cases q with
  | ok => exact absurd rfl hq
  | errRes => exact ⟨rfl, rfl, rfl, rfl, rfl, rfl, rfl⟩
  | thrown => exact ⟨rfl, rfl, rfl, rfl, rfl, rfl, rfl⟩

/-- Witness for C1 at a concrete store and failure outcome. -/
theorem accessor_failure_policy_witness :
    getMessages dbEmpty "a" "b" 50 0 .errRes = [] ∧
    markMessagesAsRead dbEmpty "a" "b" .errRes = dbEmpty :=
  ⟨(accessor_failure_policy dbEmpty "a" "b" "hi" 50 0 7 .errRes
      (by decide)).1,
   (accessor_failure_policy dbEmpty "a" "b" "hi" 50 0 7 .errRes
      (by decide)).2.2.2.2.1⟩

/-- **C10**: if the insert inside `sendMessage` throws, `sendMessage` returns
`null` but first broadcasts a fabricated message — fresh random id, status
`'sent'`, current timestamps — onto the pair broadcast channel, which the
peer's pair filter accepts, although no durable row with that id exists;
an insert that fails with an error result returns `null` without
broadcasting. -/
theorem sendMessage_thrown_broadcasts_phantom (db : DB)
    (A B content : String) (tempId : Nat)
    (hfresh : ∀ r ∈ db.messages, r.id ≠ tempId) :
    (sendMessage db A B content tempId .thrown).result = none ∧
    (sendMessage db A B content tempId .thrown).db = db ∧
    (∃ tmsg,
      (sendMessage db A B content tempId .thrown).broadcasts = [tmsg] ∧
      tmsg.id = tempId ∧ tmsg.status = .sent ∧
      tmsg.created_at = db.now ∧ tmsg.updated_at = db.now ∧
      tmsg.sender_id = A ∧ tmsg.receiver_id = B ∧ tmsg.content = content ∧
      handlePairPayload B A tmsg = [tmsg] ∧
      ∀ r ∈ (sendMessage db A B content tempId .thrown).db.messages,
        r.id ≠ tmsg.id) ∧
    ((sendMessage db A B content tempId .errRes).result = none ∧
      (sendMessage db A B content tempId .errRes).broadcasts = [] ∧
      (sendMessage db A B content tempId .errRes).db = db) := by
  refine ⟨rfl, rfl,
    ⟨_, rfl, rfl, rfl, rfl, rfl, rfl, rfl, rfl, ?_, ?_⟩, rfl, rfl, rfl⟩
  · simp [handlePairPayload]
  · exact fun r hr => hfresh r hr

/-- Witness for C10 at a concrete store: the phantom broadcast happens while
the store stays empty. -/
theorem sendMessage_thrown_broadcasts_phantom_witness :
    (sendMessage dbEmpty "a" "b" "hi" 5 .thrown).result = none ∧
    (sendMessage dbEmpty "a" "b" "hi" 5 .thrown).db = dbEmpty :=
  ⟨(sendMessage_thrown_broadcasts_phantom dbEmpty "a" "b" "hi" 5
      (by simp [dbEmpty])).1,
   (sendMessage_thrown_broadcasts_phantom dbEmpty "a" "b" "hi" 5
      (by simp [dbEmpty])).2.1⟩

/-- **C8**: `markMessagesAsRead(sender, receiver)` updates exactly the
messages from `sender` to `receiver` whose status is not yet `'read'`,
setting status `'read'` and stamping `read_at`; messages of the opposite
direction, of other pairs, and already-read messages are unchanged, and
failures are logged rather than raised (the store is left unchanged). -/
theorem markRead_updates_exactly (db : DB) (s r : String) :
    (markMessagesAsRead db s r .ok).messages.length = db.messages.length ∧
    (∀ i, i < db.messages.length → ∀ m, db.messages[i]? = some m →
      ((m.sender_id = s ∧ m.receiver_id = r ∧ m.status ≠ .read →
        (markMessagesAsRead db s r .ok).messages[i]? =
          some { m with status := .read, read_at := some db.now }) ∧
       (¬(m.sender_id = s ∧ m.receiver_id = r ∧ m.status ≠ .read) →
        (markMessagesAsRead db s r .ok).messages[i]? = some m))) ∧
    (∀ q, q ≠ DbOutcome.ok → markMessagesAsRead db s r q = db) := by
  refine ⟨by simp [markMessagesAsRead], ?_, ?_⟩
  · intro i _ m hm
    constructor
    · intro hcond
      simp only [markMessagesAsRead, List.getElem?_map, hm, Option.map_some']
      rw [if_pos hcond]
    · intro hcond
      simp only [markMessagesAsRead, List.getElem?_map, hm, Option.map_some']
      rw [if_neg hcond]
  · intro q hq
    cases q with
    | ok => exact absurd rfl hq
    | errRes => rfl
    | thrown => rfl

/-- Witness for C8: the single unread message from "a" to "b" gets status
`'read'` and `read_at` stamped. -/
theorem markRead_updates_exactly_witness :
    (markMessagesAsRead dbOneUnread "a" "b" .ok).messages[0]? =
      some { msgUnreadAB with status := .read, read_at := some 9 } :=
  ((markRead_updates_exactly dbOneUnread "a" "b").2.1 0 (by decide) msgUnreadAB
    (by decide)).1 (by decide)

/-- **C9**: after `sendTypingIndicator(user, target, true)` succeeds and no
further typing calls are made for the pair, a timeout is pending for exactly
this pair, scheduled 3000 ms ahead; firing it upserts `is_typing = false`
for the pair and leaves no pending timeout, so the indicator auto-resets to
false without further input. -/
theorem typing_indicator_auto_expiry (s : TypingState) (u t : String)
    (now : Nat) :
    ((typingKey u t, now + 3000) ∈
        (sendTypingIndicator s u t true now .ok).timeouts ∧
      (sendTypingIndicator s u t true now .ok).timeouts.countP
        (fun kv => kv.1 == typingKey u t) = 1) ∧
    latestTyping
        (fireTypingTimeout (sendTypingIndicator s u t true now .ok) u t
          (now + 3000) .ok).rows u t = some false ∧
    (fireTypingTimeout (sendTypingIndicator s u t true now .ok) u t
        (now + 3000) .ok).timeouts.countP
      (fun kv => kv.1 == typingKey u t) = 0 := by
  have hz : ∀ l : List (String × Nat),
      (l.filter (fun kv => !(kv.1 == typingKey u t))).countP
        (fun kv => kv.1 == typingKey u t) = 0 := by
    intro l
    rw [List.countP_filter]
    simp
  have h1 : (sendTypingIndicator s u t true now .ok).timeouts =
      (s.timeouts.filter (fun kv => !(kv.1 == typingKey u t))) ++
        [(typingKey u t, now + 3000)] := rfl
  have h2 : (fireTypingTimeout (sendTypingIndicator s u t true now .ok) u t
      (now + 3000) .ok).rows =
      (s.rows ++ [{ user_id := u, target_user_id := t, is_typing := true }]) ++
        [{ user_id := u, target_user_id := t, is_typing := false }] := rfl
  have h3 : (fireTypingTimeout (sendTypingIndicator s u t true now .ok) u t
      (now + 3000) .ok).timeouts =
      (sendTypingIndicator s u t true now .ok).timeouts.filter
        (fun kv => !(kv.1 == typingKey u t)) := rfl
  refine ⟨⟨?_, ?_⟩, ?_, ?_⟩
  · rw [h1]
    exact List.mem_append_right _ (List.mem_singleton.mpr rfl)
  · rw [h1, List.countP_append, hz]
    simp [List.countP_cons]
  · rw [latestTyping, h2]
    simp [List.filter_append, List.getLast?_concat]
  · rw [h3]
    exact hz _

/-- **C3**: for all users A, B and all limit and offset,
`getMessages(A, B, limit, offset)` returns the conversation's messages
sorted ascending by creation time, restricted to the window
`[offset, offset + limit - 1]` of that sorted sequence; on a conversation
with zero messages it returns an empty sequence, not an error. -/
theorem getMessages_paginated_ordered (db : DB) (u1 u2 : String)
    (limit offset : Nat) :
    List.Sorted (fun a b : Message => a.created_at ≤ b.created_at)
      (getMessages db u1 u2 limit offset .ok) ∧
    (∀ m ∈ getMessages db u1 u2 limit offset .ok,
      (m.sender_id = u1 ∧ m.receiver_id = u2) ∨
      (m.sender_id = u2 ∧ m.receiver_id = u1)) ∧
    (getMessages db u1 u2 limit offset .ok).length =
      min limit ((pairRows db u1 u2).length - offset) ∧
    (∀ i, i < limit →
      (getMessages db u1 u2 limit offset .ok)[i]? =
        ((((pairRows db u1 u2).insertionSort timeLE)[offset + i]?).map
          (hydrateMessage db.profiles))) ∧
    (pairRows db u1 u2 = [] → getMessages db u1 u2 limit offset .ok = []) := by
  have hg : getMessages db u1 u2 limit offset .ok =
      ((((pairRows db u1 u2).insertionSort timeLE).drop offset).take
        limit).map (hydrateMessage db.profiles) := rfl
  have hsorted : List.Sorted timeLE
      ((pairRows db u1 u2).insertionSort timeLE) :=
    List.sorted_insertionSort timeLE _
  have hsub : List.Sublist
      ((((pairRows db u1 u2).insertionSort timeLE).drop offset).take limit)
      ((pairRows db u1 u2).insertionSort timeLE) :=
    (List.take_sublist _ _).trans (List.drop_sublist _ _)
  refine ⟨?_, ?_, ?_, ?_, ?_⟩
  · rw [hg]
    refine List.pairwise_map.mpr ?_
    exact (List.Pairwise.sublist hsub hsorted).imp (fun h => h)
  · intro m hm
    rw [hg] at hm
    rcases List.mem_map.mp hm with ⟨row, hrow, rfl⟩
    have hmem : row ∈ pairRows db u1 u2 :=
      (List.mem_insertionSort timeLE).mp (List.Sublist.mem hrow hsub)
    have hb := (List.mem_filter.mp hmem).2
    simp only [betweenPair, Bool.or_eq_true, Bool.and_eq_true,
      beq_iff_eq] at hb
    exact hb
  · rw [hg, List.length_map, List.length_take, List.length_drop,
      (List.perm_insertionSort timeLE (pairRows db u1 u2)).length_eq]
  · intro i hi
    rw [hg, List.getElem?_map, List.getElem?_take, if_pos hi,
      List.getElem?_drop]
  · intro h
    rw [hg, h]
    simp

/-- Witness for C3: with an empty store, fetching a 50-message page of the
(empty) conversation returns the empty sequence. -/
theorem getMessages_paginated_ordered_witness :
    getMessages dbEmpty "a" "b" 50 0 .ok = [] :=
  (getMessages_paginated_ordered dbEmpty "a" "b" 50 0).2.2.2.2 rfl

/-- **C2**: for all users A and B, after `sendMessage(A, B, content)`
succeeds, a subsequent `getMessages(A, B)` (with the window covering the
conversation) returns that message exactly once, positioned after all
previously stored messages of the pair in the creation-time-ordered
sequence. -/
theorem send_then_fetch_exactly_once (db : DB) (A B content : String)
    (tempId limit : Nat)
    (hid : ∀ r ∈ db.messages, r.id < db.nextId)
    (hclock : ∀ r ∈ db.messages, r.created_at ≤ db.now)
    (hlim : (pairRows db A B).length < limit) :
    ∃ msg, (sendMessage db A B content tempId .ok).result = some msg ∧
      getMessages (sendMessage db A B content tempId .ok).db A B limit 0
          .ok =
        getMessages db A B limit 0 .ok ++ [msg] ∧
      (getMessages (sendMessage db A B content tempId .ok).db A B limit 0
          .ok).countP (fun x => x.id == msg.id) = 1 := by
  have hpair : pairRows (sendMessage db A B content tempId .ok).db A B =
      pairRows db A B ++ [insertedRow db A B content] := by
    unfold pairRows
    rw [show (sendMessage db A B content tempId .ok).db.messages =
        db.messages ++ [insertedRow db A B content] from rfl,
      List.filter_append]
    congr 1
    simp [betweenPair, insertedRow]
  have hsortapp : (pairRows db A B ++
      [insertedRow db A B content]).insertionSort timeLE =
      (pairRows db A B).insertionSort timeLE ++
        [insertedRow db A B content] :=
    insertionSort_append_single timeLE _ _
      (fun x hx => hclock x (List.mem_filter.mp hx).1)
  have hlen : ((pairRows db A B).insertionSort timeLE).length ≤ limit := by
    rw [(List.perm_insertionSort timeLE (pairRows db A B)).length_eq]
    omega
  have hlenapp : ((pairRows db A B).insertionSort timeLE ++
      [insertedRow db A B content]).length ≤ limit := by
    rw [List.length_append,
      (List.perm_insertionSort timeLE (pairRows db A B)).length_eq]
    simp only [List.length_singleton]
    omega
  have hg1 : getMessages (sendMessage db A B content tempId .ok).db A B
      limit 0 .ok =
      ((pairRows db A B).insertionSort timeLE ++
        [insertedRow db A B content]).map (hydrateMessage db.profiles) := by
    rw [show getMessages (sendMessage db A B content tempId .ok).db A B
        limit 0 .ok =
        ((((pairRows (sendMessage db A B content tempId .ok).db A
          B).insertionSort timeLE).drop 0).take limit).map
          (hydrateMessage db.profiles) from rfl,
      hpair, hsortapp, List.drop_zero, List.take_of_length_le hlenapp]
  have hg2 : getMessages db A B limit 0 .ok =
      ((pairRows db A B).insertionSort timeLE).map
        (hydrateMessage db.profiles) := by
    rw [show getMessages db A B limit 0 .ok =
        ((((pairRows db A B).insertionSort timeLE).drop 0).take
          limit).map (hydrateMessage db.profiles) from rfl,
      List.drop_zero, List.take_of_length_le hlen]
  refine ⟨hydrateMessage db.profiles (insertedRow db A B content), rfl,
    ?_, ?_⟩
  · rw [hg1, hg2, List.map_append]
    rfl
  · rw [hg1, List.map_append, List.countP_append]
    have hzero : (((pairRows db A B).insertionSort timeLE).map
        (hydrateMessage db.profiles)).countP
        (fun x => x.id ==
          (hydrateMessage db.profiles
            (insertedRow db A B content)).id) = 0 := by
      rw [List.countP_eq_zero]
      intro x hx
      rcases List.mem_map.mp hx with ⟨r0, hr0, rfl⟩
      have hmem : r0 ∈ db.messages :=
        (List.mem_filter.mp
          ((List.mem_insertionSort timeLE).mp hr0)).1
      have hlt := hid r0 hmem
      show ¬(r0.id == db.nextId) = true
      simp only [beq_iff_eq]
      exact Nat.ne_of_lt hlt
    rw [hzero]
    simp [List.countP_cons]

/-- Witness for C2 at a concrete store: sending into an empty conversation
and fetching returns exactly the new message. -/
theorem send_then_fetch_exactly_once_witness :
    ∃ msg, (sendMessage dbEmpty "a" "b" "hi" 7 .ok).result = some msg ∧
      getMessages (sendMessage dbEmpty "a" "b" "hi" 7 .ok).db "a" "b" 50 0
          .ok =
        getMessages dbEmpty "a" "b" 50 0 .ok ++ [msg] ∧
      (getMessages (sendMessage dbEmpty "a" "b" "hi" 7 .ok).db "a" "b" 50 0
          .ok).countP (fun x => x.id == msg.id) = 1 :=
  send_then_fetch_exactly_once dbEmpty "a" "b" "hi" 7 50
    (by simp [dbEmpty]) (by simp [dbEmpty]) (by decide)

/-! ### Generic facts about the insertion-ordered keyed-map idiom -/

theorem find?_map_of_pred_invariant {α : Type} (p : α → Bool) (g : α → α)
    (hp : ∀ x, p (g x) = p x) (l : List α) :
    (l.map g).find? p = (l.find? p).map g := by
  induction l with
  | nil => rfl
  | cons x l ih =>
    by_cases hx : p x = true
    · rw [List.map_cons, List.find?_cons_of_pos _ ((hp x).trans hx),
        List.find?_cons_of_pos _ hx, Option.map_some']
    · rw [List.map_cons,
        List.find?_cons_of_neg _ (by rw [hp x]; exact hx),
        List.find?_cons_of_neg _ hx, ih]

theorem keyOf_upd {α : Type} (keyOf : α → String) (k : String) (f : α → α)
    (hf : ∀ x, keyOf x = k → keyOf (f x) = k) (x : α) :
    keyOf (if (keyOf x == k) = true then f x else x) = keyOf x := by
  by_cases hx : keyOf x = k
  · rw [if_pos (beq_iff_eq.mpr hx), hf x hx, hx]
  · rw [if_neg (by simp [hx])]

theorem keyedUpsert_keys_present {α : Type} (keyOf : α → String) (k : String)
    (f : α → α) (new : α) (acc : List α)
    (hf : ∀ x, keyOf x = k → keyOf (f x) = k)
    (hacc : acc.any (fun x => keyOf x == k) = true) :
    (keyedUpsert keyOf k f new acc).map keyOf = acc.map keyOf := by
  rw [keyedUpsert, if_pos hacc, List.map_map]
  exact List.map_congr_left (fun x _ => keyOf_upd keyOf k f hf x)

theorem keyedUpsert_keys_absent {α : Type} (keyOf : α → String) (k : String)
    (f : α → α) (new : α) (acc : List α)
    (hnew : keyOf new = k)
    (hacc : acc.any (fun x => keyOf x == k) = false) :
    (keyedUpsert keyOf k f new acc).map keyOf = acc.map keyOf ++ [k] := by
  rw [keyedUpsert, if_neg (by rw [hacc]; exact Bool.false_ne_true),
    List.map_append, List.map_cons, List.map_nil, hnew]

theorem keyedUpsert_keys_nodup {α : Type} (keyOf : α → String) (k : String)
    (f : α → α) (new : α) (acc : List α)
    (hf : ∀ x, keyOf x = k → keyOf (f x) = k) (hnew : keyOf new = k)
    (hn : (acc.map keyOf).Nodup) :
    ((keyedUpsert keyOf k f new acc).map keyOf).Nodup := by
  cases hacc : acc.any (fun x => keyOf x == k) with
  | true => rw [keyedUpsert_keys_present keyOf k f new acc hf hacc]; exact hn
  | false =>
    rw [keyedUpsert_keys_absent keyOf k f new acc hnew hacc]
    have hk : k ∉ acc.map keyOf := by
      intro hmem
      rcases List.mem_map.mp hmem with ⟨x, hx, hkx⟩
      have : acc.any (fun x => keyOf x == k) = true :=
        List.any_eq_true.mpr ⟨x, hx, beq_iff_eq.mpr hkx⟩
      rw [hacc] at this
      exact Bool.false_ne_true this
    simp [List.nodup_append, hn, hk]

theorem keyedUpsert_key_mem {α : Type} (keyOf : α → String) (k : String)
    (f : α → α) (new : α) (acc : List α)
    (hf : ∀ x, keyOf x = k → keyOf (f x) = k) (hnew : keyOf new = k) :
    k ∈ (keyedUpsert keyOf k f new acc).map keyOf := by
  cases hacc : acc.any (fun x => keyOf x == k) with
  | true =>
    rw [keyedUpsert_keys_present keyOf k f new acc hf hacc]
    rcases List.any_eq_true.mp hacc with ⟨x, hx, hkx⟩
    exact (beq_iff_eq.mp hkx) ▸ List.mem_map_of_mem keyOf hx
  | false =>
    rw [keyedUpsert_keys_absent keyOf k f new acc hnew hacc]
    exact List.mem_append_right _ (List.mem_singleton.mpr rfl)

theorem keyedUpsert_key_mono {α : Type} (keyOf : α → String) (k k' : String)
    (f : α → α) (new : α) (acc : List α)
    (hf : ∀ x, keyOf x = k → keyOf (f x) = k) (hnew : keyOf new = k)
    (hmem : k' ∈ acc.map keyOf) :
    k' ∈ (keyedUpsert keyOf k f new acc).map keyOf := by
  cases hacc : acc.any (fun x => keyOf x == k) with
  | true => rw [keyedUpsert_keys_present keyOf k f new acc hf hacc]; exact hmem
  | false =>
    rw [keyedUpsert_keys_absent keyOf k f new acc hnew hacc]
    exact List.mem_append_left _ hmem

theorem keyedUpsert_find_ne {α : Type} (keyOf : α → String) (k k' : String)
    (f : α → α) (new : α) (acc : List α)
    (hf : ∀ x, keyOf x = k → keyOf (f x) = k) (hnew : keyOf new = k)
    (hk : k' ≠ k) :
    (keyedUpsert keyOf k f new acc).find? (fun x => keyOf x == k') =
      acc.find? (fun x => keyOf x == k') := by
  rw [keyedUpsert]
  split
  · rw [find?_map_of_pred_invariant (fun x => keyOf x == k')
      (fun x => if keyOf x == k then f x else x)
      (fun x => by
        show (keyOf (if (keyOf x == k) = true then f x else x) == k') =
          (keyOf x == k')
        rw [keyOf_upd keyOf k f hf x]) acc]
    cases hfind : acc.find? (fun x => keyOf x == k') with
    | none => rfl
    | some y =>
      have hy' := List.find?_some hfind
      have hyk : keyOf y ≠ k := by
        rw [beq_iff_eq.mp hy']
        exact hk
      show some (if (keyOf y == k) = true then f y else y) = some y
      rw [if_neg (by simp [hyk])]
  · rw [List.find?_append]
    have hnone : ([new].find? (fun x => keyOf x == k')) = none := by
      rw [List.find?_eq_none]
      intro x hx
      rw [List.mem_singleton.mp hx]
      show ¬(keyOf new == k') = true
      rw [hnew]
      simp only [beq_iff_eq]
      exact fun hc => hk hc.symm
    rw [hnone, Option.or_none]

theorem keyedUpsert_find_self {α : Type} (keyOf : α → String) (k : String)
    (f : α → α) (new : α) (acc : List α)
    (hf : ∀ x, keyOf x = k → keyOf (f x) = k) (hnew : keyOf new = k) :
    (keyedUpsert keyOf k f new acc).find? (fun x => keyOf x == k) =
      (match acc.find? (fun x => keyOf x == k) with
       | some y => some (f y)
       | none => some new) := by
  rw [keyedUpsert]
  split
  · next hacc =>
    rw [find?_map_of_pred_invariant (fun x => keyOf x == k)
      (fun x => if keyOf x == k then f x else x)
      (fun x => by
        show (keyOf (if (keyOf x == k) = true then f x else x) == k) =
          (keyOf x == k)
        rw [keyOf_upd keyOf k f hf x]) acc]
    rcases List.any_eq_true.mp hacc with ⟨x, hx, hkx⟩
    cases hfind : acc.find? (fun x => keyOf x == k) with
    | none =>
      rw [List.find?_eq_none] at hfind
      exact absurd hkx (hfind x hx)
    | some y =>
      show some (if (keyOf y == k) = true then f y else y) = some (f y)
      rw [if_pos (List.find?_some hfind)]
  · next hacc =>
    rw [List.find?_append]
    have hnone : acc.find? (fun x => keyOf x == k) = none := by
      rw [List.find?_eq_none]
      intro x hx hc
      exact hacc (List.any_eq_true.mpr ⟨x, hx, hc⟩)
    rw [hnone, Option.none_or]
    exact List.find?_cons_of_pos _ (beq_iff_eq.mpr hnew)

theorem keyedUpsert_mem_cases {α : Type} (keyOf : α → String) (k : String)
    (f : α → α) (new : α) (acc : List α) :
    ∀ x ∈ keyedUpsert keyOf k f new acc,
      x ∈ acc ∨ x = new ∨ ∃ y ∈ acc, x = f y := by
  intro x hx
  rw [keyedUpsert] at hx
  split at hx
  · rcases List.mem_map.mp hx with ⟨y, hy, hgy⟩
    have hgy' : (if (keyOf y == k) = true then f y else y) = x := hgy
    by_cases hky : keyOf y = k
    · rw [if_pos (beq_iff_eq.mpr hky)] at hgy'
      exact Or.inr (Or.inr ⟨y, hy, hgy'.symm⟩)
    · rw [if_neg (by simp [hky])] at hgy'
      exact Or.inl (hgy' ▸ hy)
  · rcases List.mem_append.mp hx with h | h
    · exact Or.inl h
    · exact Or.inr (Or.inl (List.mem_singleton.mp h))

theorem find?_key_of_mem_nodup {α : Type} (keyOf : α → String) (l : List α)
    (hn : (l.map keyOf).Nodup) (c : α) (hc : c ∈ l) :
    l.find? (fun x => keyOf x == keyOf c) = some c := by
  induction l with
  | nil => cases hc
  | cons x l ih =>
    have hn2 : (keyOf x :: l.map keyOf).Nodup := hn
    have hn' := List.nodup_cons.mp hn2
    rcases List.mem_cons.mp hc with rfl | hc'
    · exact List.find?_cons_of_pos _ (beq_iff_eq.mpr rfl)
    · by_cases hx : keyOf x = keyOf c
      · exact absurd (hx ▸ List.mem_map_of_mem keyOf hc') hn'.1
      · rw [List.find?_cons_of_neg _ (by simp [hx])]
        exact ih hn'.2 hc'

theorem countP_key_eq_one {α : Type} (keyOf : α → String) (l : List α)
    (hn : (l.map keyOf).Nodup) (k : String) (hk : k ∈ l.map keyOf) :
    l.countP (fun x => keyOf x == k) = 1 := by
  induction l with
  | nil => cases hk
  | cons x l ih =>
    have hn2 : (keyOf x :: l.map keyOf).Nodup := hn
    have hn' := List.nodup_cons.mp hn2
    have hk2 : k ∈ keyOf x :: l.map keyOf := hk
    rcases List.mem_cons.mp hk2 with rfl | hk'
    · have hz : l.countP (fun y => keyOf y == keyOf x) = 0 := by
        rw [List.countP_eq_zero]
        intro y hy hc
        exact hn'.1 (beq_iff_eq.mp hc ▸ List.mem_map_of_mem keyOf hy)
      simp [List.countP_cons, hz]
    · have hx : keyOf x ≠ k := by
        intro hc
        exact hn'.1 (hc ▸ hk')
      have hrec := ih hn'.2 hk'
      simp [List.countP_cons, hx, hrec]

/-! ### The `getConversations` grouping fold -/

theorem convStep_f_keys (u : String) (m : MessageRow) (k : String) :
    ∀ x : ConversationPreview, x.user_id = k →
      (if m.sender_id ≠ u then
        { x with unread_count := x.unread_count + 1 }
      else x).user_id = k := by
  intro x hx
  by_cases hs : m.sender_id ≠ u
  · rw [if_pos hs]; exact hx
  · rw [if_neg hs]; exact hx

theorem convFold_keys_nodup (u : String) (l : List MessageRow) :
    ∀ acc : List ConversationPreview,
      (acc.map (fun c => c.user_id)).Nodup →
      ((l.foldl (convStep u) acc).map (fun c => c.user_id)).Nodup := by
  induction l with
  | nil => intro acc h; simpa using h
  | cons m l ih =>
    intro acc h
    rw [List.foldl_cons]
    exact ih _ (keyedUpsert_keys_nodup _ (otherOf u m) _ _ acc
      (fun x hx => convStep_f_keys u m (otherOf u m) x hx) rfl h)

theorem convFold_unread_present (u k : String) (l : List MessageRow) :
    ∀ (acc : List ConversationPreview) (n : Nat),
      unreadOf k acc = some n →
      unreadOf k (l.foldl (convStep u) acc) =
        some (n + l.countP (unreadCond u k)) := by
  induction l with
  | nil =>
    intro acc n h
    simpa using h
  | cons m l ih =>
    intro acc n h
    rw [List.foldl_cons]
    rcases Option.map_eq_some'.mp h with ⟨c, hfind, hcn⟩
    by_cases hk : otherOf u m = k
    · subst hk
      have hstep : unreadOf (otherOf u m) (convStep u acc m) =
          some (n + (if unreadCond u (otherOf u m) m = true then 1 else 0)) := by
        unfold unreadOf convStep
        rw [keyedUpsert_find_self _ (otherOf u m) _ _ acc
          (fun x hx => convStep_f_keys u m (otherOf u m) x hx) rfl, hfind]
        by_cases hs : m.sender_id = u
        · have hcond : unreadCond u (otherOf u m) m = false := by
            unfold unreadCond
            rw [beq_iff_eq.mpr hs]
            simp
          rw [hcond]
          simp [hs, hcn]
        · have hcond : unreadCond u (otherOf u m) m = true := by
            unfold unreadCond
            rw [beq_eq_false_iff_ne.mpr hs]
            simp
          rw [hcond]
          simp [hs, hcn]
      rw [ih _ _ hstep, List.countP_cons]
      congr 1
      omega
    · have hstep : unreadOf k (convStep u acc m) = some n := by
        unfold unreadOf convStep
        rw [keyedUpsert_find_ne _ (otherOf u m) k _ _ acc
          (fun x hx => convStep_f_keys u m (otherOf u m) x hx) rfl
          (fun hc => hk hc.symm)]
        unfold unreadOf at h
        exact h
      rw [ih _ _ hstep, List.countP_cons]
      have hcond : unreadCond u k m = false := by
        unfold unreadCond
        rw [beq_eq_false_iff_ne.mpr hk]
        simp
      rw [hcond]
      simp

theorem convFold_unread_absent (u k : String) (l : List MessageRow) :
    ∀ acc : List ConversationPreview,
      unreadOf k acc = none →
      ∀ c', (l.foldl (convStep u) acc).find? (fun c => c.user_id == k) =
          some c' →
        c'.unread_count = l.countP (unreadCond u k) := by
  induction l with
  | nil =>
    intro acc h c' hc'
    rw [List.foldl_nil] at hc'
    unfold unreadOf at h
    rw [hc'] at h
    cases h
  | cons m l ih =>
    intro acc h c' hc'
    rw [List.foldl_cons] at hc'
    by_cases hk : otherOf u m = k
    · subst hk
      have hnone : acc.find? (fun c => c.user_id == otherOf u m) = none := by
        unfold unreadOf at h
        cases hfind : acc.find? (fun c => c.user_id == otherOf u m) with
        | none => rfl
        | some y => rw [hfind] at h; cases h
      have hstep : unreadOf (otherOf u m) (convStep u acc m) =
          some (if unreadCond u (otherOf u m) m = true then 1 else 0) := by
        unfold unreadOf convStep
        rw [keyedUpsert_find_self _ (otherOf u m) _ _ acc
          (fun x hx => convStep_f_keys u m (otherOf u m) x hx) rfl, hnone]
        by_cases hs : m.sender_id = u
        · have hcond : unreadCond u (otherOf u m) m = false := by
            unfold unreadCond
            rw [beq_iff_eq.mpr hs]
            simp
          rw [hcond]
          simp [hs]
        · have hcond : unreadCond u (otherOf u m) m = true := by
            unfold unreadCond
            rw [beq_eq_false_iff_ne.mpr hs]
            simp
          rw [hcond]
          simp [hs]
      have hall := convFold_unread_present u (otherOf u m) l _ _ hstep
      unfold unreadOf at hall
      rw [hc'] at hall
      rcases Option.map_eq_some'.mp hall with ⟨y, hy, hyn⟩
      have hcy : c' = y := Option.some.inj hy
      subst hcy
      rw [hyn, List.countP_cons]
      omega
    · have hstep : unreadOf k (convStep u acc m) = none := by
        unfold unreadOf convStep
        rw [keyedUpsert_find_ne _ (otherOf u m) k _ _ acc
          (fun x hx => convStep_f_keys u m (otherOf u m) x hx) rfl
          (fun hc => hk hc.symm)]
        unfold unreadOf at h
        exact h
      have hrec := ih _ hstep c' hc'
      rw [hrec, List.countP_cons]
      have hcond : unreadCond u k m = false := by
        unfold unreadCond
        rw [beq_eq_false_iff_ne.mpr hk]
        simp
      rw [hcond]
      simp

theorem hydrateConv_preserves (db : DB) (c : ConversationPreview) :
    (hydrateConv db c).user_id = c.user_id ∧
    (hydrateConv db c).unread_count = c.unread_count := by
  unfold hydrateConv
  cases hp : lookupProfile db.profiles c.user_id <;>
    cases hs : db.statuses.find? (fun s => s.user_id == c.user_id) <;>
      simp [hp, hs]

theorem unreadCond_touch_eq (u k : String) (m : MessageRow) :
    (unreadCond u k m && (m.sender_id == u || m.receiver_id == u)) =
      (betweenPair u k m && !(m.sender_id == u)) := by
  unfold unreadCond betweenPair otherOf
  by_cases h1 : m.sender_id = u
  · have hb : (m.sender_id == u) = true := beq_iff_eq.mpr h1
    rw [if_pos h1, hb]
    simp
  · have hb : (m.sender_id == u) = false := beq_eq_false_iff_ne.mpr h1
    rw [if_neg h1, hb]
    by_cases h2 : m.receiver_id = u
    · have hb2 : (m.receiver_id == u) = true := beq_iff_eq.mpr h2
      rw [hb2]
      simp
    · have hb2 : (m.receiver_id == u) = false := beq_eq_false_iff_ne.mpr h2
      rw [hb2]
      simp

/-- **C5**: for every user U, the unread count of the preview for a peer P in
`getConversations(U)` equals the number of messages between U and P whose
sender is not U, regardless of those messages' read or delivered status. -/
theorem conversations_unread_count (db : DB) (u : String) :
    ∀ c ∈ getConversations db u .ok,
      c.unread_count =
        db.messages.countP
          (fun m => betweenPair u c.user_id m && !(m.sender_id == u)) := by
  intro c hc
  have hres : getConversations db u .ok =
      (((db.messages.filter
        (fun m => m.sender_id == u || m.receiver_id == u)).insertionSort
          timeGE).foldl (convStep u) []).map (hydrateConv db) := rfl
  rw [hres] at hc
  rcases List.mem_map.mp hc with ⟨c0, hc0, rfl⟩
  have hnodup : ((((db.messages.filter
      (fun m => m.sender_id == u || m.receiver_id == u)).insertionSort
        timeGE).foldl (convStep u) []).map (fun c => c.user_id)).Nodup :=
    convFold_keys_nodup u _ [] (by simp)
  have hfind := find?_key_of_mem_nodup (fun c => c.user_id) _ hnodup c0 hc0
  have hunread := convFold_unread_absent u c0.user_id
    ((db.messages.filter
      (fun m => m.sender_id == u || m.receiver_id == u)).insertionSort timeGE)
    [] rfl c0 hfind
  have hcount : ((db.messages.filter
      (fun m => m.sender_id == u || m.receiver_id == u)).insertionSort
        timeGE).countP (unreadCond u c0.user_id) =
      db.messages.countP (fun m => unreadCond u c0.user_id m &&
        (m.sender_id == u || m.receiver_id == u)) := by
    rw [(List.perm_insertionSort timeGE _).countP_eq, List.countP_filter]
  have hpt : (fun m => unreadCond u c0.user_id m &&
      (m.sender_id == u || m.receiver_id == u)) =
      (fun m => betweenPair u c0.user_id m && !(m.sender_id == u)) :=
    funext (fun m => unreadCond_touch_eq u c0.user_id m)
  have hpres := hydrateConv_preserves db c0
  rw [hpres.2, hpres.1, hunread, hcount, hpt]

/-- Witness for C5: a single message from peer "p" to user "u" yields the
preview for "p" with unread count 1, matching the count over the store. -/
theorem conversations_unread_count_witness :
    ({ user_id := "p", name := "Unknown User", profile_picture := none,
       last_message := some { content := "yo", created_at := 1,
                              sender_id := "p" },
       unread_count := 1, is_online := false,
       last_seen := none } : ConversationPreview).unread_count =
      dbOnePeerMsg.messages.countP
        (fun m => betweenPair "u" "p" m && !(m.sender_id == "u")) :=
  conversations_unread_count dbOnePeerMsg "u"
    { user_id := "p", name := "Unknown User", profile_picture := none,
      last_message := some { content := "yo", created_at := 1,
                             sender_id := "p" },
      unread_count := 1, is_online := false, last_seen := none }
    (by decide)

/-! ### The messaging-page directory merge -/

theorem buildById_keys_nodup (convs : List ConversationPreview) :
    ((buildById convs).map (fun c => c.user_id)).Nodup := by
  suffices h : ∀ acc : List ConversationPreview,
      (acc.map (fun c => c.user_id)).Nodup →
      ((convs.foldl (fun acc c => keyedUpsert (fun x => x.user_id) c.user_id
        (fun _ => c) c acc) acc).map (fun c => c.user_id)).Nodup by
    exact h [] (by simp)
  induction convs with
  | nil => intro acc h; simpa using h
  | cons c convs ih =>
    intro acc h
    rw [List.foldl_cons]
    exact ih _ (keyedUpsert_keys_nodup _ c.user_id _ _ acc
      (fun _ _ => rfl) rfl h)

theorem buildById_mem_subset (convs : List ConversationPreview) :
    ∀ x ∈ buildById convs, x ∈ convs := by
  suffices h : ∀ l acc : List ConversationPreview,
      (∀ c ∈ l, c ∈ convs) → (∀ x ∈ acc, x ∈ convs) →
      ∀ x ∈ l.foldl (fun acc c => keyedUpsert (fun y => y.user_id) c.user_id
        (fun _ => c) c acc) acc, x ∈ convs by
    exact fun x hx => h convs [] (fun c hc => hc) (by simp) x hx
  intro l
  induction l with
  | nil => intro acc _ hacc x hx; exact hacc x (by simpa using hx)
  | cons c l ih =>
    intro acc hl hacc x hx
    rw [List.foldl_cons] at hx
    refine ih _ (fun c' hc' => hl c' (List.mem_cons_of_mem c hc')) ?_ x hx
    intro y hy
    rcases keyedUpsert_mem_cases _ c.user_id _ _ acc y hy with
      hmem | heq | ⟨z, hz, heq⟩
    · exact hacc y hmem
    · rw [heq]; exact hl c (List.mem_cons_self c l)
    · rw [heq]; exact hl c (List.mem_cons_self c l)

theorem dirFold_keys_nodup (o : List OnlineEntry) (dir : List Profile) :
    ∀ acc : List ConversationPreview,
      (acc.map (fun c => c.user_id)).Nodup →
      ((dir.foldl (upsertDir o) acc).map (fun c => c.user_id)).Nodup := by
  induction dir with
  | nil => intro acc h; simpa using h
  | cons d dir ih =>
    intro acc h
    rw [List.foldl_cons]
    exact ih _ (keyedUpsert_keys_nodup _ d.user_id _ _ acc
      (fun _ hx => hx) rfl h)

theorem dirFold_key_mono (o : List OnlineEntry) (dir : List Profile) :
    ∀ (acc : List ConversationPreview) (k : String),
      k ∈ acc.map (fun c => c.user_id) →
      k ∈ (dir.foldl (upsertDir o) acc).map (fun c => c.user_id) := by
  induction dir with
  | nil => intro acc k h; simpa using h
  | cons d dir ih =>
    intro acc k h
    rw [List.foldl_cons]
    exact ih _ k (keyedUpsert_key_mono _ d.user_id k _ _ acc
      (fun _ hx => hx) rfl h)

theorem dirFold_key_mem (o : List OnlineEntry) (dir : List Profile) :
    ∀ acc : List ConversationPreview, ∀ p ∈ dir,
      p.user_id ∈ (dir.foldl (upsertDir o) acc).map (fun c => c.user_id) := by
  induction dir with
  | nil => intro acc p hp; cases hp
  | cons d dir ih =>
    intro acc p hp
    rw [List.foldl_cons]
    rcases List.mem_cons.mp hp with rfl | hp'
    · exact dirFold_key_mono o dir _ p.user_id
        (keyedUpsert_key_mem _ p.user_id _ _ acc (fun _ hx => hx) rfl)
    · exact ih _ p hp'

theorem dirFold_zero_unread (o : List OnlineEntry) (dir : List Profile)
    (k : String) :
    ∀ acc : List ConversationPreview,
      (∀ c ∈ acc, c.user_id = k →
        c.unread_count = 0 ∧ c.last_message = none) →
      ∀ c ∈ dir.foldl (upsertDir o) acc, c.user_id = k →
        c.unread_count = 0 ∧ c.last_message = none := by
  induction dir with
  | nil => intro acc h c hc; exact h c (by simpa using hc)
  | cons d dir ih =>
    intro acc h
    rw [List.foldl_cons]
    refine ih _ ?_
    intro c hc hck
    rcases keyedUpsert_mem_cases _ d.user_id _ _ acc c hc with
      hmem | rfl | ⟨y, hy, rfl⟩
    · exact h c hmem hck
    · exact ⟨rfl, rfl⟩
    · exact h y hy hck

theorem convStep_keys_sub (u : String) (m : MessageRow)
    (acc : List ConversationPreview) :
    ∀ k, k ∈ (convStep u acc m).map (fun c => c.user_id) →
      k ∈ acc.map (fun c => c.user_id) ∨ k = otherOf u m := by
  intro k hk
  unfold convStep at hk
  cases hacc : acc.any (fun c => c.user_id == otherOf u m) with
  | true =>
    rw [keyedUpsert_keys_present _ (otherOf u m) _ _ acc
      (fun x hx => convStep_f_keys u m (otherOf u m) x hx) hacc] at hk
    exact Or.inl hk
  | false =>
    rw [keyedUpsert_keys_absent _ (otherOf u m) _ _ acc rfl hacc] at hk
    rcases List.mem_append.mp hk with h' | h'
    · exact Or.inl h'
    · exact Or.inr (List.mem_singleton.mp h')

theorem convFold_key_origin (u : String) (l : List MessageRow) :
    ∀ acc, ∀ x ∈ l.foldl (convStep u) acc,
      x.user_id ∈ acc.map (fun c => c.user_id) ∨
        x.user_id ∈ l.map (otherOf u) := by
  induction l with
  | nil =>
    intro acc x hx
    exact Or.inl (List.mem_map_of_mem _ (by simpa using hx))
  | cons m l ih =>
    intro acc x hx
    rw [List.foldl_cons] at hx
    rcases ih _ x hx with h | h
    · rcases convStep_keys_sub u m acc _ h with h' | h'
      · exact Or.inl h'
      · exact Or.inr (List.mem_cons.mpr (Or.inl h'))
    · exact Or.inr (List.mem_cons_of_mem _ h)

theorem betweenPair_otherOf (u : String) (m : MessageRow)
    (h : (m.sender_id == u || m.receiver_id == u) = true) :
    betweenPair u (otherOf u m) m = true := by
  unfold betweenPair otherOf
  by_cases h1 : m.sender_id = u
  · rw [if_pos h1, beq_iff_eq.mpr h1]
    simp
  · rw [if_neg h1]
    have h' : m.sender_id = u ∨ m.receiver_id = u := by simpa using h
    have h2 : m.receiver_id = u := by
      rcases h' with hc | hc
      · exact absurd hc h1
      · exact hc
    rw [beq_iff_eq.mpr h2]
    simp

theorem conversations_key_origin (db : DB) (u : String) :
    ∀ c ∈ getConversations db u .ok, ∃ m ∈ db.messages,
      betweenPair u c.user_id m = true := by
  intro c hc
  have hres : getConversations db u .ok =
      (((db.messages.filter
        (fun m => m.sender_id == u || m.receiver_id == u)).insertionSort
          timeGE).foldl (convStep u) []).map (hydrateConv db) := rfl
  rw [hres] at hc
  rcases List.mem_map.mp hc with ⟨c0, hc0, rfl⟩
  rcases convFold_key_origin u _ [] c0 hc0 with h | h
  · simp at h
  · rcases List.mem_map.mp h with ⟨m, hm, hkey⟩
    have hf := List.mem_filter.mp ((List.mem_insertionSort timeGE).mp hm)
    refine ⟨m, hf.1, ?_⟩
    rw [(hydrateConv_preserves db c0).1, ← hkey]
    exact betweenPair_otherOf u m hf.2

/-- **C4**: the merged conversation list built on entering the messaging view
contains every directory user (every profile except the current user)
exactly once — users with no message history getting unread count zero and
no last message — and is sorted by the three keys: online first, then
most-recent message time descending, then name ascending. -/
theorem chat_directory_merge (db : DB) (u : String) :
    (∀ p ∈ db.profiles, p.user_id ≠ u →
      (initChat db u).countP (fun c => c.user_id == p.user_id) = 1) ∧
    (∀ p ∈ db.profiles, p.user_id ≠ u →
      (∀ m ∈ db.messages, betweenPair u p.user_id m = false) →
      ∀ c ∈ initChat db u, c.user_id = p.user_id →
        c.unread_count = 0 ∧ c.last_message = none) ∧
    List.Sorted convLE (initChat db u) := by
  have hinit : initChat db u =
      ((getAllUsersExcept db u .ok).foldl
        (upsertDir (getOnlineUsers db u .ok))
        (buildById (getConversations db u .ok))).insertionSort convLE := rfl
  refine ⟨?_, ?_, ?_⟩
  · intro p hp hpu
    rw [hinit, (List.perm_insertionSort convLE _).countP_eq]
    have hnodup := dirFold_keys_nodup (getOnlineUsers db u .ok)
      (getAllUsersExcept db u .ok) _
      (buildById_keys_nodup (getConversations db u .ok))
    have hmemdir : p ∈ getAllUsersExcept db u .ok := by
      rw [show getAllUsersExcept db u .ok =
        (db.profiles.filter
          (fun q => !(q.user_id == u))).insertionSort nameLE from rfl,
        List.mem_insertionSort]
      exact List.mem_filter.mpr ⟨hp, by simp [hpu]⟩
    have hkey := dirFold_key_mem (getOnlineUsers db u .ok)
      (getAllUsersExcept db u .ok)
      (buildById (getConversations db u .ok)) p hmemdir
    exact countP_key_eq_one (fun c : ConversationPreview => c.user_id) _
      hnodup p.user_id hkey
  · intro p hp hpu hno c hc hck
    rw [hinit] at hc
    have hc2 := (List.mem_insertionSort convLE).mp hc
    have hbase : ∀ c0 ∈ buildById (getConversations db u .ok),
        c0.user_id = p.user_id →
        c0.unread_count = 0 ∧ c0.last_message = none := by
      intro c0 hc0 hc0k
      rcases conversations_key_origin db u c0
        (buildById_mem_subset (getConversations db u .ok) c0 hc0) with
        ⟨m, hm, hbm⟩
      rw [hc0k, hno m hm] at hbm
      cases hbm
    exact dirFold_zero_unread (getOnlineUsers db u .ok)
      (getAllUsersExcept db u .ok) p.user_id
      (buildById (getConversations db u .ok)) hbase c hc2 hck
  · rw [hinit]
    exact List.sorted_insertionSort convLE _

/-- Witness for C4: with one directory profile "p" and no messages, the
merged list contains "p" exactly once. -/
theorem chat_directory_merge_witness :
    (initChat dbOneProfile "u").countP (fun c => c.user_id == "p") = 1 :=
  (chat_directory_merge dbOneProfile "u").1 profP (by decide) (by decide)

end RealtimeMessaging
